import Mathlib

/-!
Shallow embedding of the agenda-parsing and letter-generation pipeline of
src/app.py (Pemakluman Keputusan JKOSC).

Strings are modelled as Lean `String` (a wrapper around `List Char`); the
regular-expression searches of the source are modelled as explicit scans
over character lists.  Python's Unicode-aware character classes (`\s`, `\w`,
`\d`, `str.upper`) are modelled on their ASCII fragment, which covers every
pattern literal and every input the claims are about; `unicodedata.normalize
("NFKC", ...)` is the identity on ASCII and is not modelled separately.
-/

/-- Python `\s` (ASCII fragment): space, tab, newline, carriage return,
vertical tab, form feed. -/
def isSpaceChar (c : Char) : Bool :=
  c == ' ' || c == '\t' || c == '\n' || c == '\r' || c == '\x0b' || c == '\x0c'

/-- Python `\w` (ASCII fragment): alphanumeric or underscore. -/
def isWordChar (c : Char) : Bool :=
  c.isAlphanum || c == '_'

/-- Case-insensitive comparison of an input character `c` against a pattern
character `p`, as performed by `re.IGNORECASE` on ASCII literals. -/
def ciEq (p c : Char) : Bool :=
  c == p.toUpper || c == p.toLower

/-- Match a literal pattern case-insensitively at the start of the input,
returning the remaining input on success.  Models a literal inside an
`re.IGNORECASE` pattern. -/
def ciConsume : List Char → List Char → Option (List Char)
  | [], s => some s
  | _ :: _, [] => none
  | p :: ps, c :: cs => if ciEq p c then ciConsume ps cs else none

/-- Word-boundary test after a match: holds at end of input or before a
non-word character (the `\b` that follows a word character). -/
def bAfter : List Char → Bool
  | [] => true
  | c :: _ => !isWordChar c

/-- Greedy run of ASCII digits at the start of the input: `(run, rest)`. -/
def takeDigits : List Char → List Char × List Char
  | [] => ([], [])
  | c :: cs =>
    if c.isDigit then
      let r := takeDigits cs
      (c :: r.1, r.2)
    else ([], c :: cs)

/-- Decimal value of a digit run, as Python `int(...)` on the matched group. -/
def digitsToNat (l : List Char) : Nat :=
  l.foldl (fun a c => a * 10 + (c.toNat - 48)) 0

/-- Strip ASCII whitespace from both ends, as Python `str.strip()`. -/
def stripL (cs : List Char) : List Char :=
  (((cs.dropWhile isSpaceChar).reverse).dropWhile isSpaceChar).reverse

/-- `String` wrapper for `stripL`. -/
def strip (s : String) : String := ⟨stripL s.data⟩

/-- Replace every maximal whitespace run by the single character `rep`, as
Python `re.sub(r"\s+", rep, s)`.  The flag records whether the previous
character belonged to a whitespace run. -/
def wsRep (rep : Char) : Bool → List Char → List Char
  | _, [] => []
  | prevWs, c :: cs =>
    if isSpaceChar c then
      if prevWs then wsRep rep true cs else rep :: wsRep rep true cs
    else c :: wsRep rep false cs

/-- src/app.py `normalize_space`: collapse whitespace runs to single spaces
and strip (the NFKC step is the identity on ASCII). -/
def normalize_space (s : String) : String :=
  ⟨stripL (wsRep ' ' false s.data)⟩

/-- Python `"\n".join(...)` on a list of lines, at character level. -/
def joinNL : List String → List Char
  | [] => []
  | [s] => s.data
  | s :: rest => s.data ++ '\n' :: joinNL rest

/-- Python `pat in s` substring test. -/
def containsSub (pat : List Char) : List Char → Bool
  | [] => pat.isEmpty
  | c :: cs => pat.isPrefixOf (c :: cs) || containsSub pat cs

/-- src/app.py lines 153-154: a paragraph opens a case block when its
uppercased text starts with "KERTAS MESYUARAT" and contains "OSC/". -/
def isBlockStart (p : String) : Bool :=
  let up := p.data.map Char.toUpper
  ("KERTAS MESYUARAT".data.isPrefixOf up) && containsSub "OSC/".data up

/-- Attempt of the regex `\bBIL\.?\s*(\d{1,3})/(\d{4})\b` at the current
position (`\b` before the position is checked by the caller): "BIL"
case-insensitively, an optional dot, optional whitespace, a digit run of
length 1-3 (the run must be followed by the literal slash, so backtracking
inside `\d{1,3}` cannot help), a slash, exactly four digits, and a word
boundary. -/
def bilAt (cs : List Char) : Option (Nat × Nat) :=
  match ciConsume "BIL".data cs with
  | none => none
  | some r1 =>
    let r2 := match r1 with
      | '.' :: t => t
      | _ => r1
    let r3 := r2.dropWhile isSpaceChar
    let p := takeDigits r3
    if p.1.length < 1 || 3 < p.1.length then none
    else
      match p.2 with
      | '/' :: r5 =>
        let q := takeDigits r5
        if q.1.length == 4 && bAfter q.2 then some (digitsToNat p.1, digitsToNat q.1)
        else none
      | _ => none

/-- `re.search` scan for the meeting-identifier pattern of
src/app.py line 116.  The flag is true when the previous character is a
word-boundary-enabling character (start of text or a non-word character). -/
def searchBil : Bool → List Char → Option (Nat × Nat)
  | _, [] => none
  | wb, c :: cs =>
    match (if wb then bilAt (c :: cs) else none) with
    | some r => some r
    | none => searchBil (!isWordChar c) cs

/-- src/app.py lines 90-103: month-spelling lookup table mapping each
uppercase key to its canonical capitalised form and month number. -/
def MALAY_MONTHS : List (String × String × Nat) :=
  [("JANUARI", "Januari", 1), ("FEBRUARI", "Februari", 2), ("MAC", "Mac", 3),
   ("APRIL", "April", 4), ("MEI", "Mei", 5), ("JUN", "Jun", 6),
   ("JULAI", "Julai", 7), ("OGOS", "Ogos", 8), ("SEPTEMBER", "September", 9),
   ("OKTOBER", "Oktober", 10), ("NOVEMBER", "November", 11), ("DISEMBER", "Disember", 12)]

/-- Match the month-name alternation of the date regex (line 121)
case-insensitively at the start of the input; on success return the
canonical name, the month number and the rest of the input.  The matched
text uppercased is exactly the table key, so the table lookup of line 130
always succeeds and is folded into this function. -/
def matchMonth (cs : List Char) : Option (String × Nat × List Char) :=
  (MALAY_MONTHS.filterMap (fun e =>
     (ciConsume e.1.data cs).map (fun r => (e.2.1, e.2.2, r)))).head?

/-- Attempt of the date regex
`\b(\d{1,2})\s*(JANUARI|...|DISEMBER)\s*(\d{4})\b` (line 120-124) at the
current position: a 1-2 digit day (the run is followed by optional
whitespace and a month name, which cannot absorb extra digits, so the full
digit run must have length at most 2), a month name, and a four-digit year
followed by a word boundary. -/
def dateAt (cs : List Char) : Option (Nat × String × Nat × Nat) :=
  let p := takeDigits cs
  if p.1.length < 1 || 2 < p.1.length then none
  else
    match matchMonth (p.2.dropWhile isSpaceChar) with
    | none => none
    | some (name, num, r3) =>
      let q := takeDigits (r3.dropWhile isSpaceChar)
      if q.1.length == 4 && bAfter q.2 then some (digitsToNat p.1, name, num, digitsToNat q.1)
      else none

/-- `re.search` scan for the date pattern of src/app.py lines 120-124. -/
def searchDate : Bool → List Char → Option (Nat × String × Nat × Nat)
  | _, [] => none
  | wb, c :: cs =>
    match (if wb then dateAt (c :: cs) else none) with
    | some r => some r
    | none => searchDate (!isWordChar c) cs

/-- src/app.py line 105: Malay weekday names, Monday first. -/
def MALAY_DOW : List String :=
  ["Isnin", "Selasa", "Rabu", "Khamis", "Jumaat", "Sabtu", "Ahad"]

/-- Gregorian leap-year rule, as used by Python `datetime.date`. -/
def isLeap (y : Nat) : Bool :=
  y % 4 == 0 && (y % 100 != 0 || y % 400 == 0)

/-- Number of days in a month of the proleptic Gregorian calendar. -/
def daysInMonth (y m : Nat) : Nat :=
  if m == 2 then (if isLeap y then 29 else 28)
  else if m == 4 || m == 6 || m == 9 || m == 11 then 30
  else 31

/-- Validity check performed by the `datetime.date(yr, mon, day)` call of
line 134: Python accepts years 1-9999 and day within the month. -/
def validDate (y m d : Nat) : Bool :=
  1 ≤ y && y ≤ 9999 && 1 ≤ m && m ≤ 12 && 1 ≤ d && d ≤ daysInMonth y m

/-- Python `datetime.date.weekday()` (Monday = 0) via Zeller's congruence. -/
def pyWeekday (y m d : Nat) : Nat :=
  let yy := if m ≤ 2 then y - 1 else y
  let mm := if m ≤ 2 then m + 12 else m
  let k := yy % 100
  let j := yy / 100
  (d + (13 * (mm + 1)) / 5 + k + k / 4 + j / 4 + 5 * j + 5) % 7

/-- Result record of src/app.py `extract_meeting_bil_and_date`
(lines 114-140): all five fields are `None`-able, mirrored by `Option`. -/
structure MeetingRaw where
  bil_num : Option Nat
  year : Option Nat
  date_str : Option String
  dt : Option (Nat × Nat × Nat)
  dow : Option String
deriving DecidableEq

/-- src/app.py lines 114-140.  The meeting identifier and the date are
searched independently; a missing identifier or date yields `none` fields
(the source returns `None` values, it raises no exception).  When the date
matches, `date_str` uses the canonical month name; `dt`/`dow` are only set
when `datetime.date` accepts the components, and the weekday is always
computed from the date via `MALAY_DOW` (the source text's own parenthesised
weekday is never read by the regex). -/
def extract_meeting_bil_and_date (full_text : List Char) : MeetingRaw :=
  let bil := searchBil true full_text
  match searchDate true full_text with
  | none =>
    { bil_num := bil.map (·.1), year := bil.map (·.2),
      date_str := none, dt := none, dow := none }
  | some (day, monName, monNum, yr) =>
    let date_str := toString day ++ " " ++ monName ++ " " ++ toString yr
    if monNum == 0 then
      { bil_num := bil.map (·.1), year := bil.map (·.2),
        date_str := some date_str, dt := none, dow := none }
    else if validDate yr monNum day then
      { bil_num := bil.map (·.1), year := bil.map (·.2),
        date_str := some date_str, dt := some (yr, monNum, day),
        dow := some (MALAY_DOW.getD (pyWeekday yr monNum day) "") }
    else
      { bil_num := bil.map (·.1), year := bil.map (·.2),
        date_str := some date_str, dt := none, dow := none }

/-- Attempt of the regex `OSC/(PKM|BGN)/(\d{1,3})/(\d{4})` (line 163,
IGNORECASE, no word boundaries) at the current position.  The Boolean is
true for the PKM category.  The 1-3 digit group must be followed by a
slash, so its whole digit run must have length at most 3; the final group
takes the next four characters, which must all be digits. -/
def oscAt (cs : List Char) : Option (Bool × Nat × Nat) :=
  match ciConsume "OSC/".data cs with
  | none => none
  | some r1 =>
    let cat : Option (Bool × List Char) :=
      match ciConsume "PKM/".data r1 with
      | some r2 => some (true, r2)
      | none =>
        match ciConsume "BGN/".data r1 with
        | some r2 => some (false, r2)
        | none => none
    match cat with
    | none => none
    | some (isPKM, r2) =>
      let p := takeDigits r2
      if p.1.length < 1 || 3 < p.1.length then none
      else
        match p.2 with
        | '/' :: r4 =>
          let q := takeDigits r4
          if 4 ≤ q.1.length then some (isPKM, digitsToNat p.1, digitsToNat (q.1.take 4))
          else none
        | _ => none

/-- `re.search` scan for the case-code pattern inside a block header. -/
def searchOsc : List Char → Option (Bool × Nat × Nat)
  | [] => none
  | c :: cs =>
    match oscAt (c :: cs) with
    | some r => some r
    | none => searchOsc cs

/-- First colon split of src/app.py line 177
(`re.split(r"\s*:\s*", ln, maxsplit=1)`): the text after the first colon,
or `none` when the line has no colon.  The whitespace the regex consumes
around the colon disappears under the subsequent `.strip()`. -/
def afterFirstColon : List Char → Option (List Char)
  | [] => none
  | c :: cs => if c == ':' then some cs else afterFirstColon cs

/-- src/app.py `find_value` (lines 173-179): return the value of the first
line matching any of the given label prefixes.  The regex
`^{re.escape(pref)}\s*:?` reduces to a case-insensitive literal-prefix
test, because its `\s*:?` tail can always match the empty string.  The
value is the text after the first colon of that same line, stripped; a
matching line without a colon yields the empty string.  No later line is
ever appended to the value. -/
def find_value (prefixes : List String) : List String → String
  | [] => ""
  | ln :: rest =>
    if prefixes.any (fun pref => (ciConsume pref.data ln.data).isSome) then
      match afterFirstColon ln.data with
      | some v => ⟨stripL v⟩
      | none => ""
    else find_value prefixes rest

/-- One alternative of the label regex of lines 186-189: the literal,
case-insensitively, followed by a word boundary. -/
def altWord (pat : String) (ln : List Char) : Bool :=
  match ciConsume pat.data ln with
  | some r => bAfter r
  | none => false

/-- Two-part alternative `A\s*B` followed by a word boundary. -/
def alt2 (a b : String) (ln : List Char) : Bool :=
  match ciConsume a.data ln with
  | some r => altWord b (r.dropWhile isSpaceChar)
  | none => false

/-- Three-part alternative `A\s*B\s*C` followed by a word boundary. -/
def alt3 (a b c : String) (ln : List Char) : Bool :=
  match ciConsume a.data ln with
  | some r =>
    match ciConsume b.data (r.dropWhile isSpaceChar) with
    | some r2 => altWord c (r2.dropWhile isSpaceChar)
    | none => false
  | none => false

/-- src/app.py `field_pat` (lines 186-189):
`^(Pemohon|Perunding|Lokasi|Koordinat|No\.\s*Rujukan|Pelan\s*Susunatur|No\.\s*Rujukan\s*OSC)\b`,
IGNORECASE, applied with `.search` whose `^` anchors it to the line start.
The line matches when any alternative matches at the start with a word
boundary after it. -/
def fieldPatMatch (ln : List Char) : Bool :=
  altWord "Pemohon" ln || altWord "Perunding" ln || altWord "Lokasi" ln ||
  altWord "Koordinat" ln || alt2 "No." "Rujukan" ln ||
  alt2 "Pelan" "Susunatur" ln || alt3 "No." "Rujukan" "OSC" ln

/-- Attempt of `\bPemohon\b` (IGNORECASE) at the current position, given
that the caller has already checked the boundary before the position: the
seven letters of "Pemohon" case-insensitively, followed by a word
boundary. -/
def pemAt : List Char → Bool
  | c1 :: c2 :: c3 :: c4 :: c5 :: c6 :: c7 :: rest =>
    ciEq 'P' c1 && ciEq 'e' c2 && ciEq 'm' c3 && ciEq 'o' c4 &&
    ciEq 'h' c5 && ciEq 'o' c6 && ciEq 'n' c7 && bAfter rest
  | _ => false

/-- Whether `\bPemohon\b` (IGNORECASE) matches anywhere in the input; the
flag records whether the previous character enables a word boundary. -/
def hasPem : Bool → List Char → Bool
  | _, [] => false
  | wb, c :: cs => (wb && pemAt (c :: cs)) || hasPem (!isWordChar c) cs

/-- src/app.py line 199, `re.split(r"\bPemohon\b", ..., IGNORECASE)[0]`:
the text before the first standalone occurrence of "Pemohon", or the whole
input when there is none. -/
def cutPem : Bool → List Char → List Char
  | _, [] => []
  | wb, c :: cs =>
    if wb && pemAt (c :: cs) then [] else c :: cutPem (!isWordChar c) cs

/-- src/app.py lines 185-199: the application description is the run of
lines before the first label line, newline-joined and stripped, then cut
before any embedded standalone "Pemohon" and stripped again. -/
def extract_nama (lines : List String) : String :=
  ⟨stripL (cutPem true (stripL (joinNL (lines.takeWhile (fun ln => !fieldPatMatch ln.data)))))⟩

/-- One retained case, as assembled in src/app.py lines 203-215 (the
`start_i` slot is only used for the stable re-sort of line 217, which is
the identity because blocks are emitted in document order; `global_idx` is
filled in afterwards, line 220-221). -/
structure Case where
  jenis_code : String
  jenis_display : String
  kertas_no : Nat
  kertas_year : Nat
  nama_permohonan : String
  pemohon : String
  perunding : String
  no_ruj_osc : String
  global_idx : Nat
deriving DecidableEq

/-- src/app.py lines 161-215 for one block: the header is the block's
first line; a block whose header does not contain a recognised
`OSC/(PKM|BGN)/num/year` code is discarded (`continue`).  The remaining
lines are whitespace-normalised with empties dropped before field
extraction. -/
def parseCase (block : List String) : Option Case :=
  match block with
  | [] => none
  | header :: rest =>
    match searchOsc header.data with
    | none => none
    | some (isPKM, kertas_no, kertas_year) =>
      let lines := (rest.map normalize_space).filter (fun s => s != "")
      some
        { jenis_code := if isPKM then "PKM" else "BGN",
          jenis_display := if isPKM then "Kebenaran Merancang" else "Bangunan",
          kertas_no := kertas_no,
          kertas_year := kertas_year,
          nama_permohonan := extract_nama lines,
          pemohon := find_value ["Pemohon"] lines,
          perunding := find_value ["Perunding"] lines,
          no_ruj_osc := find_value ["No. Rujukan OSC"] lines,
          global_idx := 0 }

/-- Block segmentation of src/app.py lines 150-160: every line satisfying
`isBlockStart` opens a block that runs to the next such line or to the end
of input; lines before the first block start belong to no block.  The
right fold returns `(blocks, lines accumulated before the next start)`;
the source computes the same slices from the list of start indices. -/
def splitBlocksR : List String → List (List String) × List String
  | [] => ([], [])
  | p :: ps =>
    let r := splitBlocksR ps
    if isBlockStart p then ((p :: r.2) :: r.1, []) else (r.1, p :: r.2)

/-- The case blocks of a paragraph list, in document order. -/
def splitBlocks (paras : List String) : List (List String) :=
  (splitBlocksR paras).1

/-- All retained cases of a paragraph list, in document order
(src/app.py lines 150-217). -/
def parseCases (paras : List String) : List Case :=
  (splitBlocks paras).filterMap parseCase

/-- Python `enumerate(l, start=n)`. -/
def enumIdx : Nat → List Case → List (Nat × Case)
  | _, [] => []
  | n, c :: cs => (n, c) :: enumIdx (n + 1) cs

/-- src/app.py lines 220-221: assign `global_idx` as a 1-based running
count over the retained cases, in order of appearance. -/
def idxAssign (cs : List Case) : List Case :=
  (enumIdx 1 cs).map (fun p => { p.2 with global_idx := p.1 })

/-- The ascending sequence `n, n+1, ..., n+k-1`. -/
def seqFrom : Nat → Nat → List Nat
  | _, 0 => []
  | n, k + 1 => n :: seqFrom (n + 1) k

/-- Result record of src/app.py `parse_agenda_docx` (lines 223-230). -/
structure AgendaResult where
  bil_num : Option Nat
  meeting_year : Option Nat
  date_str : Option String
  dt : Option (Nat × Nat × Nat)
  dow : Option String
  cases : List Case
deriving DecidableEq

/-- src/app.py `parse_agenda_docx` (lines 143-230), starting from the
paragraph texts of the document: strip each paragraph and drop empties
(line 145), join them for the meeting-info search (line 146-148), segment
and parse the case blocks, and assign the running `global_idx`. -/
def parse_agenda (paraTexts : List String) : AgendaResult :=
  let paras := (paraTexts.map strip).filter (fun s => s != "")
  let m := extract_meeting_bil_and_date (joinNL paras)
  { bil_num := m.bil_num, meeting_year := m.year, date_str := m.date_str,
    dt := m.dt, dow := m.dow, cases := idxAssign (parseCases paras) }

/-- Python `a or b` on an optional integer: `None` and `0` both fall back. -/
def orNat (o : Option Nat) (d : Nat) : Nat :=
  match o with
  | none => d
  | some n => if n = 0 then d else n

/-- Python `a or b` on an optional string: `None` and `""` both fall back. -/
def orStr (o : Option String) (d : String) : String :=
  match o with
  | none => d
  | some s => if s = "" then d else s

/-- Python `f"{n:02d}"` for a natural number. -/
def pad2 (n : Nat) : String :=
  if n < 10 then "0" ++ toString n else toString n

/-- Python `f"{n:03d}"` for a natural number. -/
def pad3 (n : Nat) : String :=
  if n < 10 then "00" ++ toString n
  else if n < 100 then "0" ++ toString n
  else toString n

/-- The text substitutions a rendered letter receives in
src/app.py `build_pemakluman_doc` (lines 381-526): the "Rujukan Kami"
reference string, the "Tarikh" row value, the date-with-weekday phrase,
the paragraph-2 sentence, and the five values of the information table.
The remaining content of the docx is fixed boilerplate and styling. -/
structure LetterDoc where
  rujukan_kami : String
  tarikh : String
  tarikh_dow : String
  para2 : String
  info_values : List String
deriving DecidableEq

/-- src/app.py lines 381-459 (the data-dependent text of the letter).
Line 390 builds the reference as `({global_idx})MBSP/15/1551/( ){year}`:
the first parenthesis holds the case's running index, the second is a
literal blank `( )` left for manual completion, and the year falls back to
the case's own `kertas_year` when the meeting year is missing or zero. -/
def build_pemakluman_doc (case : Case) (meeting : AgendaResult) : LetterDoc :=
  let bil_num := orNat meeting.bil_num 0
  let year := orNat meeting.meeting_year case.kertas_year
  let tarikh_str := orStr meeting.date_str ""
  let tarikh_dow :=
    match meeting.dow with
    | some dw =>
      if tarikh_str != "" && dw != "" then tarikh_str ++ " (" ++ dw ++ ")" else tarikh_str
    | none => tarikh_str
  let rujukan_kami := "(" ++ toString case.global_idx ++ ")MBSP/15/1551/( )" ++ toString year
  { rujukan_kami := rujukan_kami,
    tarikh := tarikh_str,
    tarikh_dow := tarikh_dow,
    para2 := "2.\tAdalah dimaklumkan bahawa Mesyuarat Jawatankuasa Pusat Setempat (OSC)\nBil."
      ++ pad2 bil_num ++ "/" ++ toString year ++ " yang bersidang pada " ++ tarikh_dow
      ++ " telah memaklumkan\nkeputusan ke atas permohonan yang telah dikemukakan oleh pihak tuan/puan seperti mana\nberikut:",
    info_values := [case.perunding, case.pemohon, case.jenis_display,
                    case.nama_permohonan, case.no_ruj_osc] }

/-- src/app.py line 530: the character class removed by `safe_filename`. -/
def isBadFileChar (c : Char) : Bool :=
  c == '\\' || c == '/' || c == '*' || c == '?' || c == ':' ||
  c == '"' || c == '<' || c == '>' || c == '|'

/-- src/app.py `safe_filename` (lines 529-532): strip, delete the
forbidden filename characters, replace every whitespace run by one
underscore, then truncate to 60 characters, falling back to "Dokumen"
when nothing remains. -/
def safe_filename (s : String) : String :=
  let cs := wsRep '_' false ((stripL s.data).filter (fun c => !isBadFileChar c))
  if cs = [] then "Dokumen" else ⟨cs.take 60⟩

/-- Python `str.replace("Tetuan ", "")`: delete every (case-sensitive)
occurrence, scanning left to right.  The fuel argument starts at the input
length and dominates every recursive call. -/
def replaceTetuanA : Nat → List Char → List Char
  | 0, l => l
  | _ + 1, [] => []
  | fuel + 1, c :: cs =>
    if "Tetuan ".data.isPrefixOf (c :: cs) then replaceTetuanA fuel (cs.drop 6)
    else c :: replaceTetuanA fuel cs

/-- src/app.py line 549: remove the "Tetuan " honorific. -/
def replaceTetuan (l : List Char) : List Char :=
  replaceTetuanA l.length l

/-- src/app.py `make_zip` (lines 535-557), at the level of the archive
entries: one `(filename, letter)` pair per retained case, the filename
being `{global_idx:02d}_OSC_{code}_{no:02d or :03d}_{year}_{applicant}.docx`
(line 550), with the applicant name sanitised through `safe_filename`
after dropping "Tetuan " (line 549).  PKM case numbers are padded to two
digits, BGN ones to three (lines 543-546). -/
def make_zip (meeting : AgendaResult) : List (String × LetterDoc) :=
  meeting.cases.map (fun case =>
    (pad2 case.global_idx ++ "_OSC_" ++ case.jenis_code ++ "_"
      ++ (if case.jenis_code = "PKM" then pad2 case.kertas_no else pad3 case.kertas_no)
      ++ "_" ++ toString (orNat meeting.meeting_year case.kertas_year)
      ++ "_" ++ safe_filename (strip ⟨replaceTetuan case.pemohon.data⟩) ++ ".docx",
     build_pemakluman_doc case meeting))

/-- The concrete agenda of the specification's end-to-end scenario:
meeting 1/2026 on Monday 12 January 2026 with one PKM case. -/
def scenario1 : List String :=
  ["BIL. 01/2026", "12 JANUARI 2026 (ISNIN)",
   "KERTAS MESYUARAT BIL. OSC/PKM/01/2026",
   "Permohonan Kebenaran Merancang Projek ABC",
   "Perunding: XYZ Consult", "Pemohon: Jane Tan",
   "No. Rujukan OSC: OSC/REF/001"]

/-- An agenda whose only block has a description line with an embedded
mid-line "Pemohon". -/
def scenario9 : List String :=
  ["KERTAS MESYUARAT BIL. OSC/BGN/2/2026", "Projek Pemohon Utama"]

/-- The case produced from `scenario9`. -/
def case9 : Case :=
  { jenis_code := "BGN", jenis_display := "Bangunan", kertas_no := 2,
    kertas_year := 2026, nama_permohonan := "Projek", pemohon := "",
    perunding := "", no_ruj_osc := "", global_idx := 1 }

/-- An agenda with one valid case but neither a meeting identifier nor a
date anywhere in its text. -/
def scenario4 : List String :=
  ["KERTAS MESYUARAT BIL. OSC/PKM/03/2026", "Pemohon: Ali"]

/-- A case-header line that the segmenter retains: it opens a block and its
`OSC/<CATEGORY>/<NUMBER>/<YEAR>` code has one of the two recognised
category tokens (the formalisation of "category token is PKM or BGN" for a
well-formed header). -/
def isRetainedHeader (p : String) : Bool :=
  isBlockStart p && (searchOsc p.data).isSome

theorem str_data_append (a b : String) : (a ++ b).data = a.data ++ b.data := by
  cases a
  cases b
  rfl

theorem enumIdx_map_idx (cs : List Case) :
    ∀ n, ((enumIdx n cs).map (fun p => ({ p.2 with global_idx := p.1 } : Case))).map
      (fun c => c.global_idx) = seqFrom n cs.length := by
  induction cs with
  | nil => intro n; rfl
  | cons c cs ih => intro n; simp [enumIdx, seqFrom, List.length_cons, ih]

theorem idxAssign_map_idx (cs : List Case) :
    (idxAssign cs).map (fun c => c.global_idx) = seqFrom 1 cs.length :=
  enumIdx_map_idx cs 1

theorem enumIdx_length (cs : List Case) : ∀ n, (enumIdx n cs).length = cs.length := by
  induction cs with
  | nil => intro n; rfl
  | cons c cs ih => intro n; simp [enumIdx, ih]

theorem idxAssign_length (cs : List Case) : (idxAssign cs).length = cs.length := by
  simp [idxAssign, enumIdx_length]

/-- C1.  Counterexample on the specification's own scenario: the rendered
Reference Number is "(1)MBSP/15/1551/( )2026", whose second parenthesised
slot is a literal blank, while the claimed pattern
`(<meeting_seq>)<FIXED_CODE>(<case_seq>)<year>` would have to end in
"(1)2026" for the first retained case of year 2026 whatever the fixed
institutional code is; the rendered string does not end in "(1)2026". -/
theorem c1_counterexample :
    (parse_agenda scenario1).bil_num = some 1
    ∧ (parse_agenda scenario1).meeting_year = some 2026
    ∧ (make_zip (parse_agenda scenario1)).map (fun e => e.2.rujukan_kami)
        = ["(1)MBSP/15/1551/( )2026"]
    ∧ ("(1)2026".data.isSuffixOf "(1)MBSP/15/1551/( )2026".data) = false := by
  refine ⟨by decide, by decide, by decide, by decide⟩

/-- C1 (amended).  For every parsed meeting and every retained case, the
Reference Number embedded in the rendered letter is an open parenthesis,
the case's own 1-based sequence index, a close parenthesis, the fixed code
"MBSP/15/1551/", a literal blank "( )" left for manual completion, and the
meeting's year (falling back to the case's header year when the meeting
year is absent or zero); the meeting's sequence number does not occur in
it, and the sequence indices run 1, 2, ... over the retained cases. -/
theorem c1_reference_format (pt : List String) :
    (parse_agenda pt).cases.map
        (fun c => (build_pemakluman_doc c (parse_agenda pt)).rujukan_kami)
      = (parse_agenda pt).cases.map
        (fun c => "(" ++ toString c.global_idx ++ ")MBSP/15/1551/( )"
          ++ toString (orNat (parse_agenda pt).meeting_year c.kertas_year))
    ∧ (parse_agenda pt).cases.map (fun c => c.global_idx)
      = seqFrom 1 (parse_agenda pt).cases.length := by
  constructor
  · rfl
  · show (idxAssign (parseCases _)).map _ = seqFrom 1 (idxAssign (parseCases _)).length
    rw [idxAssign_map_idx, idxAssign_length]

/-- C3.  Counterexample: on a block whose lines are a labelled line
"Pemohon: John", a continuation line "Doe Enterprise" and a label line,
`find_value` returns only "John" — the continuation line is never
appended, refuting the claimed value "John Doe Enterprise". -/
theorem c3_counterexample :
    find_value ["Pemohon"] ["Pemohon: John", "Doe Enterprise", "Perunding: Acme Sdn Bhd"]
      = "John"
    ∧ ("John" : String) ≠ "John Doe Enterprise" := by
  refine ⟨by decide, by decide⟩

/-- C3 (amended).  Field extraction takes the value of a labelled field
from the labelled line alone: for every applicant text `x` and every list
of following lines, the extracted value of a block starting with
"Pemohon: " followed by `x` is `x` stripped, regardless of what follows —
later lines are never space-joined onto the value. -/
theorem c3_label_line_value (x : String) (rest : List String) :
    find_value ["Pemohon"] (("Pemohon: " ++ x) :: rest) = ⟨stripL x.data⟩ := by
  cases x with
  | mk xd =>
    have h1 : ("Pemohon: " ++ String.mk xd) = String.mk ("Pemohon: ".data ++ xd) := rfl
    rw [h1]
    have h2 : stripL (' ' :: xd) = stripL xd := by
      have hd : List.dropWhile isSpaceChar (' ' :: xd) = List.dropWhile isSpaceChar xd := by
        simp [List.dropWhile_cons, show isSpaceChar ' ' = true from rfl]
      simp [stripL, hd]
    calc find_value ["Pemohon"] (String.mk ("Pemohon: ".data ++ xd) :: rest)
        = ⟨stripL (' ' :: xd)⟩ := rfl
      _ = ⟨stripL xd⟩ := by rw [h2]

/-- C4.  Counterexample: `scenario4` contains neither a meeting-identifier
token nor a date token, yet the run is not aborted: the meeting-info
parser returns `none` sentinels (it has no MeetingIdentifierNotFound or
MeetingDateNotFound failure), case processing proceeds, and a letter is
rendered for the case with fallback year and empty date. -/
theorem c4_counterexample :
    (parse_agenda scenario4).bil_num = none
    ∧ (parse_agenda scenario4).meeting_year = none
    ∧ (parse_agenda scenario4).date_str = none
    ∧ (make_zip (parse_agenda scenario4)).map (fun e => (e.1, e.2.rujukan_kami, e.2.tarikh_dow))
        = [("01_OSC_PKM_03_2026_Ali.docx", "(1)MBSP/15/1551/( )2026", "")] := by
  refine ⟨by decide, by decide, by decide, by decide⟩

/-- C4 (amended).  When the meeting-identifier token is absent the parser
returns `none` for the sequence number and year, and when the date token
is absent it returns `none` for the date, calendar date and weekday; in
both situations no error is raised and rendering still succeeds, letting
the letter fall back to the case's header year and to an empty date
phrase. -/
theorem c4_missing_tokens_nonfatal (t : List Char) (c : Case) (M : AgendaResult) :
    (searchBil true t = none →
      (extract_meeting_bil_and_date t).bil_num = none
      ∧ (extract_meeting_bil_and_date t).year = none)
    ∧ (searchDate true t = none →
      (extract_meeting_bil_and_date t).date_str = none
      ∧ (extract_meeting_bil_and_date t).dt = none
      ∧ (extract_meeting_bil_and_date t).dow = none)
    ∧ (M.bil_num = none → M.meeting_year = none → M.date_str = none → M.dow = none →
      (build_pemakluman_doc c M).rujukan_kami
          = "(" ++ toString c.global_idx ++ ")MBSP/15/1551/( )" ++ toString c.kertas_year
      ∧ (build_pemakluman_doc c M).tarikh_dow = "") := by
  refine ⟨?_, ?_, ?_⟩
  · intro h
    unfold extract_meeting_bil_and_date
    rcases hd : searchDate true t with _ | ⟨day, name, num, yr⟩
    · simp [h]
    · by_cases h0 : (num == 0) = true
      · simp [h, h0]
      · by_cases hv : validDate yr num day = true
        · simp [h, h0, hv]
        · simp [h, h0, hv]
  · intro h
    unfold extract_meeting_bil_and_date
    simp [h]
  · intro h1 h2 h3 h4
    refine ⟨?_, ?_⟩
    · simp [build_pemakluman_doc, h2, orNat]
    · simp [build_pemakluman_doc, h3, h4, orStr]

/-- C4 witness: the amended behaviour at a concrete tokenless text and a
concrete meeting record with all sentinels `none`. -/
theorem c4_witness :
    ((extract_meeting_bil_and_date "tiada apa-apa di sini".data).bil_num = none
      ∧ (extract_meeting_bil_and_date "tiada apa-apa di sini".data).year = none)
    ∧ ((extract_meeting_bil_and_date "tiada apa-apa di sini".data).date_str = none
      ∧ (extract_meeting_bil_and_date "tiada apa-apa di sini".data).dt = none
      ∧ (extract_meeting_bil_and_date "tiada apa-apa di sini".data).dow = none)
    ∧ ((build_pemakluman_doc
          { jenis_code := "BGN", jenis_display := "Bangunan", kertas_no := 9,
            kertas_year := 2031, nama_permohonan := "", pemohon := "",
            perunding := "", no_ruj_osc := "", global_idx := 7 }
          { bil_num := none, meeting_year := none, date_str := none,
            dt := none, dow := none, cases := [] }).rujukan_kami
        = "(7)MBSP/15/1551/( )2031"
      ∧ (build_pemakluman_doc
          { jenis_code := "BGN", jenis_display := "Bangunan", kertas_no := 9,
            kertas_year := 2031, nama_permohonan := "", pemohon := "",
            perunding := "", no_ruj_osc := "", global_idx := 7 }
          { bil_num := none, meeting_year := none, date_str := none,
            dt := none, dow := none, cases := [] }).tarikh_dow = "") := by
  refine ⟨?_, ?_, ?_⟩
  · exact (c4_missing_tokens_nonfatal "tiada apa-apa di sini".data
      { jenis_code := "BGN", jenis_display := "Bangunan", kertas_no := 9,
        kertas_year := 2031, nama_permohonan := "", pemohon := "",
        perunding := "", no_ruj_osc := "", global_idx := 7 }
      { bil_num := none, meeting_year := none, date_str := none,
        dt := none, dow := none, cases := [] }).1 (by decide)
  · exact (c4_missing_tokens_nonfatal "tiada apa-apa di sini".data
      { jenis_code := "BGN", jenis_display := "Bangunan", kertas_no := 9,
        kertas_year := 2031, nama_permohonan := "", pemohon := "",
        perunding := "", no_ruj_osc := "", global_idx := 7 }
      { bil_num := none, meeting_year := none, date_str := none,
        dt := none, dow := none, cases := [] }).2.1 (by decide)
  · exact (c4_missing_tokens_nonfatal "tiada apa-apa di sini".data
      { jenis_code := "BGN", jenis_display := "Bangunan", kertas_no := 9,
        kertas_year := 2031, nama_permohonan := "", pemohon := "",
        perunding := "", no_ruj_osc := "", global_idx := 7 }
      { bil_num := none, meeting_year := none, date_str := none,
        dt := none, dow := none, cases := [] }).2.2 rfl rfl rfl rfl

/-- C5.  Counterexample on the specification's scenario: the archive entry
for the first retained case is named "01_OSC_PKM_01_2026_Jane_Tan.docx",
not the letter's Reference Number "(1)MBSP/15/1551/( )2026" with path
separators replaced by hyphens (with or without the ".docx" extension). -/
theorem c5_counterexample :
    (make_zip (parse_agenda scenario1)).map (fun e => e.1)
        = ["01_OSC_PKM_01_2026_Jane_Tan.docx"]
    ∧ ("(1)MBSP/15/1551/( )2026".data.map (fun c => if c == '/' then '-' else c)
        = "(1)MBSP-15-1551-( )2026".data)
    ∧ ("01_OSC_PKM_01_2026_Jane_Tan.docx" : String) ≠ "(1)MBSP-15-1551-( )2026"
    ∧ ("01_OSC_PKM_01_2026_Jane_Tan.docx" : String) ≠ "(1)MBSP-15-1551-( )2026.docx" := by
  refine ⟨by decide, by decide, by decide, by decide⟩

/-- C5 (amended).  The filename of each archive entry is not derived from
the Reference Number at all: it is the case's zero-padded sequence index,
"OSC", the category code, the case-paper number (two digits for PKM, three
for BGN), the year, and the sanitised applicant name (with the "Tetuan "
honorific removed), joined by underscores and suffixed ".docx"; the
sequence indices run 1, 2, ... over the retained cases. -/
theorem c5_filename_format (pt : List String) :
    (make_zip (parse_agenda pt)).map (fun e => e.1)
      = (parse_agenda pt).cases.map (fun c =>
          pad2 c.global_idx ++ "_OSC_" ++ c.jenis_code ++ "_"
            ++ (if c.jenis_code = "PKM" then pad2 c.kertas_no else pad3 c.kertas_no)
            ++ "_" ++ toString (orNat (parse_agenda pt).meeting_year c.kertas_year)
            ++ "_" ++ safe_filename (strip ⟨replaceTetuan c.pemohon.data⟩) ++ ".docx")
    ∧ (parse_agenda pt).cases.map (fun c => c.global_idx)
      = seqFrom 1 (parse_agenda pt).cases.length := by
  constructor
  · simp [make_zip]
  · show (idxAssign (parseCases _)).map _ = seqFrom 1 (idxAssign (parseCases _)).length
    rw [idxAssign_map_idx, idxAssign_length]

/-- C6.  Counterexample: for a date token followed by the parenthesised
source weekday "(JUMAAT)", the parser ignores the source weekday and
computes the weekday from the calendar date instead — 12 January 2026 is a
Monday, so `weekday_name` is "Isnin", not the claimed "Jumaat". -/
theorem c6_counterexample :
    (extract_meeting_bil_and_date "12 JANUARI 2026 (JUMAAT)".data).dow = some "Isnin"
    ∧ (some "Isnin" : Option String) ≠ some "Jumaat" := by
  refine ⟨by decide, by decide⟩

/-- C6 (amended).  The weekday name is always computed from the parsed
calendar date via the fixed Monday-first list `MALAY_DOW`; a parenthesised
weekday in the source text is never consulted (the second half of the
original claim holds, the first does not). -/
theorem c6_weekday_computed (t : List Char) (y m d : Nat)
    (h : (extract_meeting_bil_and_date t).dt = some (y, m, d)) :
    (extract_meeting_bil_and_date t).dow = some (MALAY_DOW.getD (pyWeekday y m d) "") := by
  unfold extract_meeting_bil_and_date at h ⊢
  rcases hd : searchDate true t with _ | ⟨day, name, num, yr⟩
  · rw [hd] at h
    simp at h
  · rw [hd] at h
    by_cases h0 : (num == 0) = true
    · simp [h0] at h
    · by_cases hv : validDate yr num day = true
      · simp [h0, hv] at h ⊢
        obtain ⟨hy, hm, hdd⟩ := h
        subst hy; subst hm; subst hdd
        rfl
      · simp [h0, hv] at h

/-- C6 witness: the amended behaviour at the concrete text whose source
weekday disagrees with the calendar. -/
theorem c6_witness :
    (extract_meeting_bil_and_date "12 JANUARI 2026 (JUMAAT)".data).dow
      = some (MALAY_DOW.getD (pyWeekday 2026 1 12) "") :=
  c6_weekday_computed "12 JANUARI 2026 (JUMAAT)".data 2026 1 12 (by decide)

/-- C8.  The pipeline is deterministic: parsing and archive generation are
pure functions of the input line sequence, so two runs on identical inputs
yield identical meeting fields, cases, letters and filenames. -/
theorem c8_deterministic (a b : List String) (h : a = b) :
    parse_agenda a = parse_agenda b
    ∧ make_zip (parse_agenda a) = make_zip (parse_agenda b) := by
  subst h
  exact ⟨rfl, rfl⟩

/-- C8 witness: both runs on the concrete scenario agree. -/
theorem c8_witness :
    parse_agenda scenario1 = parse_agenda scenario1
    ∧ make_zip (parse_agenda scenario1) = make_zip (parse_agenda scenario1) :=
  c8_deterministic scenario1 scenario1 rfl

theorem parseCase_isSome_eq (p : String) (a : List String) :
    (parseCase (p :: a)).isSome = (searchOsc p.data).isSome := by
  rcases ho : searchOsc p.data with _ | ⟨b, n, y⟩ <;> simp [parseCase, ho]

theorem length_filterMap_eq_countP {α β : Type} (f : α → Option β) :
    ∀ l : List α, (l.filterMap f).length = l.countP (fun a => (f a).isSome) := by
  intro l
  induction l with
  | nil => rfl
  | cons a l ih =>
    rcases hf : f a with _ | b <;>
      simp [List.filterMap_cons, List.countP_cons, hf, ih]

theorem splitBlocksR_countP (l : List String) :
    ((splitBlocksR l).1).countP (fun b => (parseCase b).isSome)
      = l.countP isRetainedHeader := by
  induction l with
  | nil => rfl
  | cons p ps ih =>
    by_cases hs : isBlockStart p = true
    · simp only [splitBlocksR, hs, if_true, List.countP_cons, parseCase_isSome_eq,
        isRetainedHeader, ih, Bool.true_and]
    · have hs' : isBlockStart p = false := by
        exact Bool.not_eq_true _ ▸ (by simpa using hs)
      simp [splitBlocksR, hs', List.countP_cons, isRetainedHeader, ih]

/-- C2.  For every input line sequence, the number of retained cases equals
the number of case-header lines whose OSC code carries one of the two
recognised category tokens (PKM / BGN); headers with any other token yield
no case, and the 1-based sequence indices are assigned as a running count
over the retained cases only, so a discarded header shifts nothing. -/
theorem c2_case_count (pt : List String) :
    (parse_agenda pt).cases.length
        = ((pt.map strip).filter (fun s => s != "")).countP isRetainedHeader
    ∧ (parse_agenda pt).cases.map (fun c => c.global_idx)
        = seqFrom 1 (parse_agenda pt).cases.length := by
  constructor
  · show (idxAssign (parseCases _)).length = _
    rw [idxAssign_length, parseCases, splitBlocks, length_filterMap_eq_countP,
      splitBlocksR_countP]
  · show (idxAssign (parseCases _)).map _ = seqFrom 1 (idxAssign (parseCases _)).length
    rw [idxAssign_map_idx, idxAssign_length]

theorem splitBlocksR_fst_nil (l : List String)
    (h : ∀ p ∈ l, isBlockStart p = false) : (splitBlocksR l).1 = [] := by
  induction l with
  | nil => rfl
  | cons p ps ih =>
    have hp := h p (List.mem_cons_self p ps)
    simp [splitBlocksR, hp, ih (fun q hq => h q (List.mem_cons_of_mem p hq))]

/-- C7.  An input line sequence with no case-header line yields an empty
case list (the segmenter is total, so no exception is possible in the
embedding; the source likewise only iterates over an empty list of block
starts). -/
theorem c7_zero_headers (pt : List String)
    (h : ((pt.map strip).filter (fun s => s != "")).all (fun p => !isBlockStart p) = true) :
    (parse_agenda pt).cases = [] := by
  have h' : ∀ p ∈ (pt.map strip).filter (fun s => s != ""), isBlockStart p = false := by
    intro p hp
    have := (List.all_eq_true.mp h) p hp
    simpa using this
  show idxAssign (parseCases _) = []
  rw [parseCases, splitBlocks, splitBlocksR_fst_nil _ h']
  rfl

/-- C7 witness: a concrete headerless input. -/
theorem c7_witness : (parse_agenda ["Selamat pagi", "Tiada kes hari ini"]).cases = [] :=
  c7_zero_headers ["Selamat pagi", "Tiada kes hari ini"] (by decide)

theorem isWord_not_space (c : Char) (h : isSpaceChar c = true) : isWordChar c = false := by
  simp [isSpaceChar] at h
  rcases h with ((((h | h) | h) | h) | h) | h <;> subst h <;> decide

theorem ciEqP_space (c : Char) (h : isSpaceChar c = true) : ciEq 'P' c = false := by
  simp [isSpaceChar] at h
  rcases h with ((((h | h) | h) | h) | h) | h <;> subst h <;> decide

theorem pemAt_space (c : Char) (l : List Char) (h : isSpaceChar c = true) :
    pemAt (c :: l) = false := by
  have hc := ciEqP_space c h
  rcases l with _ | ⟨c2, _ | ⟨c3, _ | ⟨c4, _ | ⟨c5, _ | ⟨c6, _ | ⟨c7, rest⟩⟩⟩⟩⟩⟩ <;>
    simp [pemAt, hc]

theorem ciEq_n_word (c : Char) (h : ciEq 'n' c = true) : isWordChar c = true := by
  simp [ciEq] at h
  rcases h with h | h <;> subst h <;> decide

theorem cutPem_decomp : ∀ (l : List Char) (wb : Bool), ∃ t, l = cutPem wb l ++ t := by
  intro l
  induction l with
  | nil => intro wb; exact ⟨[], rfl⟩
  | cons c cs ih =>
    intro wb
    by_cases h : (wb && pemAt (c :: cs)) = true
    · exact ⟨c :: cs, by simp [cutPem, h]⟩
    · obtain ⟨t, ht⟩ := ih (!isWordChar c)
      refine ⟨t, ?_⟩
      have hcut : cutPem wb (c :: cs) = c :: cutPem (!isWordChar c) cs := by
        simp [cutPem, h]
      rw [hcut, List.cons_append, ← ht]

theorem cutPem_cons_eq {b : Bool} {x y : Char} {xs ys : List Char}
    (h : cutPem b (x :: xs) = y :: ys) : cutPem (!isWordChar x) xs = ys := by
  by_cases hc : (b && pemAt (x :: xs)) = true
  · simp [cutPem, hc] at h
  · simp [cutPem, hc] at h
    exact h.2

theorem pemAt_cutPem (c : Char) (b : Bool) (cs : List Char)
    (h : pemAt (c :: cutPem b cs) = true) : pemAt (c :: cs) = true := by
  obtain ⟨t, ht⟩ := cutPem_decomp cs b
  rcases t with _ | ⟨w, ts⟩
  · rw [List.append_nil] at ht
    rw [← ht] at h
    exact h
  · rcases hr : cutPem b cs with _ | ⟨r1, _ | ⟨r2, _ | ⟨r3, _ | ⟨r4, _ | ⟨r5, _ | ⟨r6, rr⟩⟩⟩⟩⟩⟩ <;>
      rw [hr] at h ht
    · simp [pemAt] at h
    · simp [pemAt] at h
    · simp [pemAt] at h
    · simp [pemAt] at h
    · simp [pemAt] at h
    · simp [pemAt] at h
    · rcases rr with _ | ⟨r7, rr'⟩
      · -- the cut produced exactly the seven letters of "Pemohon":
        -- impossible, since it only cuts at a word boundary and the
        -- seventh letter is a word character
        simp only [pemAt, bAfter, Bool.and_eq_true] at h
        obtain ⟨⟨⟨⟨⟨⟨⟨h1, h2⟩, h3⟩, h4⟩, h5⟩, h6⟩, h7⟩, -⟩ := h
        rw [ht] at hr
        have e1 := cutPem_cons_eq hr
        have e2 := cutPem_cons_eq e1
        have e3 := cutPem_cons_eq e2
        have e4 := cutPem_cons_eq e3
        have e5 := cutPem_cons_eq e4
        have e6 := cutPem_cons_eq e5
        have hw : isWordChar r6 = true := ciEq_n_word r6 h7
        simp [cutPem, hw] at e6
      · rw [ht]
        simp only [List.cons_append] at h ⊢
        simp only [pemAt, bAfter, Bool.and_eq_true] at h ⊢
        exact h

theorem hasPem_cutPem : ∀ (l : List Char) (wb : Bool), hasPem wb (cutPem wb l) = false := by
  intro l
  induction l with
  | nil => intro wb; rfl
  | cons c cs ih =>
    intro wb
    by_cases h : (wb && pemAt (c :: cs)) = true
    · simp [cutPem, h, hasPem]
    · have hcut : cutPem wb (c :: cs) = c :: cutPem (!isWordChar c) cs := by
        simp [cutPem, h]
      rw [hcut]
      simp only [hasPem]
      rw [ih (!isWordChar c)]
      simp only [Bool.or_false]
      by_cases hwb : wb = true
      · subst hwb
        by_cases hp : pemAt (c :: cutPem (!isWordChar c) cs) = true
        · have hcc := pemAt_cutPem c (!isWordChar c) cs hp
          simp [hcc] at h
        · have hp' : pemAt (c :: cutPem (!isWordChar c) cs) = false := by
            simpa using hp
          simp [hp']
      · have hwb' : wb = false := by simpa using hwb
        simp [hwb']

theorem bAfter_append_sp (r t : List Char) (hb : bAfter r = true)
    (ht : ∀ c ∈ t, isSpaceChar c = true) : bAfter (r ++ t) = true := by
  rcases r with _ | ⟨x, xs⟩
  · rcases t with _ | ⟨w, ws⟩
    · rfl
    · have hw := ht w (List.mem_cons_self w ws)
      simp [bAfter, isWord_not_space w hw]
  · simpa [bAfter] using hb

theorem pemAt_append_sp (l t : List Char) (hp : pemAt l = true)
    (ht : ∀ c ∈ t, isSpaceChar c = true) : pemAt (l ++ t) = true := by
  rcases l with _ | ⟨c1, _ | ⟨c2, _ | ⟨c3, _ | ⟨c4, _ | ⟨c5, _ | ⟨c6, _ | ⟨c7, rest⟩⟩⟩⟩⟩⟩⟩ <;>
    simp only [pemAt, Bool.and_eq_true, List.cons_append] at hp ⊢
  · simp at hp
  · simp at hp
  · simp at hp
  · simp at hp
  · simp at hp
  · simp at hp
  · simp at hp
  · obtain ⟨⟨⟨⟨⟨⟨⟨h1, h2⟩, h3⟩, h4⟩, h5⟩, h6⟩, h7⟩, hb⟩ := hp
    exact ⟨⟨⟨⟨⟨⟨⟨h1, h2⟩, h3⟩, h4⟩, h5⟩, h6⟩, h7⟩, bAfter_append_sp rest t hb ht⟩

theorem hasPem_append_sp : ∀ (l : List Char) (wb : Bool) (t : List Char),
    (∀ c ∈ t, isSpaceChar c = true) → hasPem wb l = true → hasPem wb (l ++ t) = true := by
  intro l
  induction l with
  | nil => intro wb t ht h; simp [hasPem] at h
  | cons c cs ih =>
    intro wb t ht h
    simp only [hasPem, Bool.or_eq_true, Bool.and_eq_true] at h
    show hasPem wb (c :: (cs ++ t)) = true
    simp only [hasPem, Bool.or_eq_true, Bool.and_eq_true]
    rcases h with ⟨hwb, hp⟩ | h
    · exact Or.inl ⟨hwb, pemAt_append_sp (c :: cs) t hp ht⟩
    · exact Or.inr (ih (!isWordChar c) t ht h)

theorem hasPem_cons_sp (c : Char) (l : List Char) (hc : isSpaceChar c = true) :
    hasPem true (c :: l) = hasPem true l := by
  simp [hasPem, pemAt_space c l hc, isWord_not_space c hc]

theorem hasPem_dropWhile_sp : ∀ l : List Char,
    hasPem true (l.dropWhile isSpaceChar) = hasPem true l := by
  intro l
  induction l with
  | nil => rfl
  | cons c cs ih =>
    by_cases hc : isSpaceChar c = true
    · rw [List.dropWhile_cons, if_pos hc, ih, hasPem_cons_sp c cs hc]
    · rw [List.dropWhile_cons, if_neg hc]

theorem mem_takeWhile_sat (p : Char → Bool) : ∀ (l : List Char) (c : Char),
    c ∈ l.takeWhile p → p c = true := by
  intro l
  induction l with
  | nil => intro c hc; simp [List.takeWhile] at hc
  | cons x xs ih =>
    intro c hc
    by_cases hx : p x = true
    · rw [List.takeWhile_cons, if_pos hx] at hc
      rcases List.mem_cons.mp hc with rfl | hc
      · exact hx
      · exact ih c hc
    · rw [List.takeWhile_cons, if_neg hx] at hc
      simp at hc

theorem stripL_no_pem (l : List Char) (h : hasPem true l = false) :
    hasPem true (stripL l) = false := by
  have h1 : hasPem true (l.dropWhile isSpaceChar) = false := by
    rw [hasPem_dropWhile_sp]; exact h
  have hdec : l.dropWhile isSpaceChar
      = ((l.dropWhile isSpaceChar).reverse.dropWhile isSpaceChar).reverse
        ++ ((l.dropWhile isSpaceChar).reverse.takeWhile isSpaceChar).reverse := by
    conv_lhs => rw [← List.reverse_reverse (l.dropWhile isSpaceChar),
      ← List.takeWhile_append_dropWhile (p := isSpaceChar)
        (l := (l.dropWhile isSpaceChar).reverse)]
    rw [List.reverse_append]
  have hsp : ∀ c ∈ ((l.dropWhile isSpaceChar).reverse.takeWhile isSpaceChar).reverse,
      isSpaceChar c = true := by
    intro c hc
    exact mem_takeWhile_sat isSpaceChar _ c (List.mem_reverse.mp hc)
  by_cases hz : hasPem true (stripL l) = true
  · have h2 := hasPem_append_sp (stripL l) true _ hsp hz
    have hs : stripL l ++ ((l.dropWhile isSpaceChar).reverse.takeWhile isSpaceChar).reverse
        = l.dropWhile isSpaceChar := by
      rw [stripL] ; exact hdec.symm
    rw [hs] at h2
    rw [h1] at h2
    exact absurd h2 (by simp)
  · simpa using hz

theorem extract_nama_no_pem (lines : List String) :
    hasPem true (extract_nama lines).data = false := by
  show hasPem true (stripL (cutPem true (stripL (joinNL _)))) = false
  exact stripL_no_pem _ (hasPem_cutPem _ true)

theorem mem_enumIdx_snd : ∀ (l : List Case) (n : Nat) (x : Nat × Case),
    x ∈ enumIdx n l → x.2 ∈ l := by
  intro l
  induction l with
  | nil => intro n x hx; simp [enumIdx] at hx
  | cons c cs ih =>
    intro n x hx
    simp only [enumIdx, List.mem_cons] at hx
    rcases hx with rfl | hx
    · simp
    · exact List.mem_cons_of_mem c (ih (n + 1) x hx)

/-- C9.  For every retained case of every input, the extracted application
description contains no standalone occurrence of the word "Pemohon"
(matched case-insensitively at word boundaries): the safety split of
src/app.py line 199 cuts the description before the first such occurrence,
and neither the cut nor the final strip can create a new one. -/
theorem c9_nama_no_pemohon (pt : List String) (c : Case)
    (hc : c ∈ (parse_agenda pt).cases) :
    hasPem true c.nama_permohonan.data = false := by
  have hc' : c ∈ idxAssign (parseCases ((pt.map strip).filter (fun s => s != ""))) := hc
  rw [idxAssign] at hc'
  obtain ⟨p, hp, rfl⟩ := List.mem_map.mp hc'
  have hp2 : p.2 ∈ parseCases ((pt.map strip).filter (fun s => s != "")) :=
    mem_enumIdx_snd _ 1 p hp
  obtain ⟨block, hb, hpc⟩ := List.mem_filterMap.mp hp2
  rcases block with _ | ⟨header, rest⟩
  · simp [parseCase] at hpc
  · rcases ho : searchOsc header.data with _ | ⟨isPKM, kn, ky⟩
    · simp [parseCase, ho] at hpc
    · simp only [parseCase, ho, Option.some.injEq] at hpc
      have hnama : ({ p.2 with global_idx := p.1 } : Case).nama_permohonan
          = p.2.nama_permohonan := rfl
      rw [hnama, ← hpc]
      exact extract_nama_no_pem _

/-- C9 witness: the description of the case of `scenario9` has its
embedded mid-line "Pemohon" cut away, and the remainder "Projek" indeed
contains no standalone "Pemohon". -/
theorem c9_witness : hasPem true ("Projek" : String).data = false :=
  c9_nama_no_pemohon scenario9 case9 (by decide)

theorem mem_wsRep_good : ∀ (l : List Char) (b : Bool),
    (∀ c ∈ l, isBadFileChar c = false) →
    ∀ c ∈ wsRep '_' b l, isBadFileChar c = false ∧ isSpaceChar c = false := by
  intro l
  induction l with
  | nil => intro b h c hc; simp [wsRep] at hc
  | cons x xs ih =>
    intro b h c hc
    have hxs : ∀ c ∈ xs, isBadFileChar c = false := fun d hd => h d (List.mem_cons_of_mem x hd)
    by_cases hx : isSpaceChar x = true
    · rcases b with _ | _
      · -- b = false: an underscore is emitted
        simp only [wsRep, hx, if_true, if_false] at hc
        rcases List.mem_cons.mp hc with rfl | hc
        · exact ⟨by decide, by decide⟩
        · exact ih true hxs c hc
      · -- b = true: the whitespace character is swallowed
        simp only [wsRep, hx, if_true] at hc
        exact ih true hxs c hc
    · have hx' : isSpaceChar x = false := by simpa using hx
      simp only [wsRep, hx', Bool.false_eq_true, if_false] at hc
      rcases List.mem_cons.mp hc with rfl | hc
      · exact ⟨h c (List.mem_cons_self _ _), hx'⟩
      · exact ih false hxs c hc

theorem mem_take_sub {α : Type} : ∀ (n : Nat) (l : List α) (c : α), c ∈ l.take n → c ∈ l := by
  intro n
  induction n with
  | zero => intro l c hc; simp at hc
  | succ n ih =>
    intro l c hc
    rcases l with _ | ⟨x, xs⟩
    · simp at hc
    · rcases List.mem_cons.mp (by simpa [List.take] using hc) with rfl | hc
      · exact List.mem_cons_self _ _
      · exact List.mem_cons_of_mem x (ih xs c hc)

/-- C10.  `safe_filename` output contains none of the forbidden filename
characters and no whitespace (whitespace runs having been replaced by
single underscores), is at most 60 characters long, is never empty, and is
the fallback "Dokumen" exactly when nothing remains after stripping,
deleting forbidden characters and replacing whitespace.  In `make_zip`
this function sanitises the applicant-derived portion of every entry's
filename. -/
theorem c10_safe_filename (s : String) :
    ((safe_filename s).data.all (fun c => !isBadFileChar c && !isSpaceChar c)) = true
    ∧ (safe_filename s).data.length ≤ 60
    ∧ safe_filename s ≠ ""
    ∧ (wsRep '_' false ((stripL s.data).filter (fun c => !isBadFileChar c)) = [] →
        safe_filename s = "Dokumen") := by
  have hgood : ∀ c ∈ wsRep '_' false ((stripL s.data).filter (fun c => !isBadFileChar c)),
      isBadFileChar c = false ∧ isSpaceChar c = false := by
    apply mem_wsRep_good
    intro c hc
    have := List.of_mem_filter hc
    simpa using this
  by_cases h : wsRep '_' false ((stripL s.data).filter (fun c => !isBadFileChar c)) = []
  · have hs : safe_filename s = "Dokumen" := by
      simp [safe_filename, h]
    refine ⟨?_, ?_, ?_, fun _ => hs⟩ <;> rw [hs] <;> decide
  · have hs : safe_filename s
        = ⟨(wsRep '_' false ((stripL s.data).filter (fun c => !isBadFileChar c))).take 60⟩ := by
      simp [safe_filename, h]
    refine ⟨?_, ?_, ?_, fun hh => absurd hh h⟩
    · rw [hs]
      apply List.all_eq_true.mpr
      intro c hc
      obtain ⟨h1, h2⟩ := hgood c (mem_take_sub 60 _ c hc)
      simp [h1, h2]
    · rw [hs]
      show (List.take 60 _).length ≤ 60
      rw [List.length_take]
      exact Nat.min_le_left _ _
    · rw [hs]
      intro he
      have hd : (wsRep '_' false ((stripL s.data).filter (fun c => !isBadFileChar c))).take 60
          = [] := congrArg String.data he
      rcases List.take_eq_nil_iff.mp hd with h60 | hnil
      · exact absurd h60 (by decide)
      · exact h hnil

/-- C10 witness: a name that sanitises to the fallback, and a name whose
sanitised form is checked clean. -/
theorem c10_witness :
    safe_filename " /?" = "Dokumen"
    ∧ ((safe_filename "Tetuan Ali b/n  Abu").data.all
        (fun c => !isBadFileChar c && !isSpaceChar c)) = true :=
  ⟨(c10_safe_filename " /?").2.2.2 (by decide), (c10_safe_filename "Tetuan Ali b/n  Abu").1⟩
